import Mathlib

/-!
Verification of `members_collage.py`: a shallow embedding of the fetch retry
loop (`_get`), the paginated member listing (`list_org_members`), the grid
search (`best_grid`) and the collage geometry (`make_collage`,
`open_as_square_thumb`), together with proofs of the specified properties.

Python floats are embedded as exact rationals (`ℚ`); Python's arbitrary
precision integers as `ℕ`/`ℤ`.  The wall clock is idealized: `time.sleep(s)`
advances it by exactly `s`, and network calls take no time.
-/

/-- Python `int(q)`: truncation toward zero of a real value (here a rational). -/
def pyInt (q : ℚ) : ℤ := if 0 ≤ q then ⌊q⌋ else ⌈q⌉

/-- An HTTP response as far as `_get` inspects it: the status code and the
`X-RateLimit-Remaining` / `X-RateLimit-Reset` headers (`none` = header absent).
The reset header is kept already parsed as an integer timestamp. -/
structure Resp where
  status : ℕ
  rateLimitRemaining : Option String
  rateLimitReset : Option ℤ
deriving DecidableEq

/-- Observable effects of one `_get` call: the idealized clock, the number of
requests issued so far, and the list of `time.sleep` durations in order. -/
structure FetchState where
  time : ℚ
  requests : ℕ
  sleeps : List ℚ

/-- Outcome of `_get`: a 2xx success (recording which attempt succeeded), a
raised `requests.HTTPError` from `raise_for_status()`, or the final
`RuntimeError("Unreachable retry logic")` after the loop ends. -/
inductive GetResult where
  | success (attempt : ℕ)
  | httpError (status : ℕ)
  | unreachableRetry
deriving DecidableEq

/-- `sleep_s = max(0, reset - int(time.time()) + 1)` from the source. -/
def rateLimitSleep (reset : ℤ) (now : ℚ) : ℤ := max 0 (reset - pyInt now + 1)

/-- One run of the body of `_get`'s loop `for attempt in range(total_retries + 1)`,
with `rem` the number of loop iterations still available and `attempt` the
current loop index (so `attempt + rem = total_retries + 1` at the top).
`resps i` is the response the server gives to the `i`-th request.  Branches, in
source order: 2xx success; 403 with remaining-quota `"0"` sleeps
`max(0, reset - now + 1)` and continues; 5xx with attempts left sleeps
`backoff * 2 ** attempt` and continues; otherwise `raise_for_status()`, which
raises exactly for statuses in `[400, 600)` and is a no-op for the rest (then
the loop continues with no sleep).  Falling off the loop raises
`RuntimeError("Unreachable retry logic")`. -/
def getGo (totalRetries : ℕ) (backoff : ℚ) (resps : ℕ → Resp) :
    ℕ → ℕ → FetchState → GetResult × FetchState
  | 0, _, st => (GetResult.unreachableRetry, st)
  | rem + 1, attempt, st =>
    let r := resps attempt
    let st1 : FetchState := { st with requests := st.requests + 1 }
    if r.status = 200 ∨ r.status = 201 then
      (GetResult.success attempt, st1)
    else if r.status = 403 ∧ r.rateLimitRemaining = some "0" then
      let s := rateLimitSleep (r.rateLimitReset.getD 0) st1.time
      getGo totalRetries backoff resps rem (attempt + 1)
        { time := st1.time + (s : ℚ), requests := st1.requests,
          sleeps := st1.sleeps ++ [(s : ℚ)] }
    else if 500 ≤ r.status ∧ attempt < totalRetries then
      let d := backoff * 2 ^ attempt
      getGo totalRetries backoff resps rem (attempt + 1)
        { time := st1.time + d, requests := st1.requests, sleeps := st1.sleeps ++ [d] }
    else if 400 ≤ r.status ∧ r.status < 600 then
      (GetResult.httpError r.status, st1)
    else
      getGo totalRetries backoff resps rem (attempt + 1) st1

/-- `_get(session, url, token, params)`: run the retry loop from attempt `0`
with a fresh request counter, starting the clock at `t0`. -/
def _get (totalRetries : ℕ) (backoff : ℚ) (resps : ℕ → Resp) (t0 : ℚ) :
    GetResult × FetchState :=
  getGo totalRetries backoff resps (totalRetries + 1) 0 ⟨t0, 0, []⟩

/-- A server that always answers 403 with remaining-quota `"0"` and reset
timestamp `0`. -/
def rlResps : ℕ → Resp := fun _ => ⟨403, some "0", some 0⟩

/-- A server that always answers plain 500. -/
def err500Resps : ℕ → Resp := fun _ => ⟨500, none, none⟩

lemma getGo_requests_le (totalRetries : ℕ) (backoff : ℚ) (resps : ℕ → Resp) :
    ∀ (rem attempt : ℕ) (st : FetchState),
      (getGo totalRetries backoff resps rem attempt st).2.requests ≤ st.requests + rem := by
  intro rem
  induction rem with
  | zero => intro attempt st; simp [getGo]
  | succ k ih =>
    intro attempt st
    rw [getGo]
    split_ifs with h1 h2 h3 h4
    · dsimp only; omega
    · exact le_trans (ih (attempt + 1) _) (by dsimp only; omega)
    · exact le_trans (ih (attempt + 1) _) (by dsimp only; omega)
    · dsimp only; omega
    · exact le_trans (ih (attempt + 1) _) (by dsimp only; omega)

lemma getGo_all_rate_limited (totalRetries : ℕ) (backoff : ℚ) (resps : ℕ → Resp)
    (h : ∀ i, (resps i).status = 403 ∧ (resps i).rateLimitRemaining = some "0") :
    ∀ (rem attempt : ℕ) (st : FetchState),
      (getGo totalRetries backoff resps rem attempt st).1 = GetResult.unreachableRetry ∧
      (getGo totalRetries backoff resps rem attempt st).2.requests = st.requests + rem := by
  intro rem
  induction rem with
  | zero => intro attempt st; simp [getGo]
  | succ k ih =>
    intro attempt st
    rw [getGo]
    have h403 := (h attempt).1
    have hrem := (h attempt).2
    rw [if_neg (by rw [h403]; omega), if_pos ⟨h403, hrem⟩]
    refine ⟨(ih (attempt + 1) _).1, ?_⟩
    rw [(ih (attempt + 1) _).2]
    simp; omega

/-- C10: `_get` always terminates within `total_retries + 1` requests, and when
every response is rate limited the loop runs out of attempts and surfaces
`RuntimeError("Unreachable retry logic")` after exactly `total_retries + 1`
requests instead of retrying forever. -/
theorem get_terminates_within_budget (totalRetries : ℕ) (backoff : ℚ)
    (resps : ℕ → Resp) (t0 : ℚ) :
    (_get totalRetries backoff resps t0).2.requests ≤ totalRetries + 1 ∧
    ((∀ i, (resps i).status = 403 ∧ (resps i).rateLimitRemaining = some "0") →
      (_get totalRetries backoff resps t0).1 = GetResult.unreachableRetry ∧
      (_get totalRetries backoff resps t0).2.requests = totalRetries + 1) := by
  constructor
  · have := getGo_requests_le totalRetries backoff resps (totalRetries + 1) 0 ⟨t0, 0, []⟩
    simpa [_get] using this
  · intro h
    have := getGo_all_rate_limited totalRetries backoff resps h (totalRetries + 1) 0 ⟨t0, 0, []⟩
    simpa [_get] using this

/-- Witness for C10 at a concrete all-rate-limited server with
`total_retries = 5`. -/
theorem get_terminates_within_budget_witness :
    (_get 5 (1/2) rlResps 0).1 = GetResult.unreachableRetry ∧
    (_get 5 (1/2) rlResps 0).2.requests = 5 + 1 :=
  (get_terminates_within_budget 5 (1/2) rlResps 0).2 (fun _ => ⟨rfl, rfl⟩)

/-- C1 counterexample: with `total_retries = 5` and every response rate
limited, the rate-limit attempts do consume the retry budget and rate limiting
is surfaced to the caller as `RuntimeError("Unreachable retry logic")` after 6
requests, contradicting the claim that a rate-limit attempt never consumes the
retry budget and is never surfaced as an error. -/
theorem rate_limit_surfaced_counterexample :
    (_get 5 (1/2) rlResps 0).1 = GetResult.unreachableRetry ∧
    (_get 5 (1/2) rlResps 0).2.requests = 6 :=
  ⟨rfl, rfl⟩

/-- C1 as amended: a rate-limited response (403 with remaining quota `"0"`)
makes `_get` sleep `max(0, reset - now + 1)` seconds and re-issue the same
request, but the rate-limited attempt consumes one unit of the
`total_retries + 1` attempt budget: a following success is reported for attempt
index `1`, after exactly 2 requests and exactly the one rate-limit sleep. -/
theorem rate_limit_sleep_retry_consumes_budget (totalRetries : ℕ) (backoff : ℚ)
    (resps : ℕ → Resp) (t0 : ℚ) (reset : ℤ)
    (htr : 1 ≤ totalRetries)
    (h0s : (resps 0).status = 403)
    (h0r : (resps 0).rateLimitRemaining = some "0")
    (h0t : (resps 0).rateLimitReset = some reset)
    (h1s : (resps 1).status = 200) :
    (_get totalRetries backoff resps t0).1 = GetResult.success 1 ∧
    (_get totalRetries backoff resps t0).2.requests = 2 ∧
    (_get totalRetries backoff resps t0).2.sleeps = [((rateLimitSleep reset t0 : ℤ) : ℚ)] := by
  obtain ⟨k, rfl⟩ : ∃ k, totalRetries = k + 1 := ⟨totalRetries - 1, by omega⟩
  rw [_get]
  rw [getGo]
  rw [if_neg (by rw [h0s]; omega), if_pos ⟨h0s, h0r⟩]
  rw [getGo]
  rw [if_pos (by rw [h1s]; omega)]
  simp [h0t]

/-- A server answering one rate-limited response, then 200. -/
def rlThenOkResps : ℕ → Resp :=
  fun i => if i = 0 then ⟨403, some "0", some 5⟩ else ⟨200, none, none⟩

/-- Witness for the amended C1 at a concrete input. -/
theorem rate_limit_sleep_retry_consumes_budget_witness :
    (_get 5 (1/2) rlThenOkResps 0).1 = GetResult.success 1 ∧
    (_get 5 (1/2) rlThenOkResps 0).2.requests = 2 ∧
    (_get 5 (1/2) rlThenOkResps 0).2.sleeps = [((rateLimitSleep 5 0 : ℤ) : ℚ)] :=
  rate_limit_sleep_retry_consumes_budget 5 (1/2) rlThenOkResps 0 5
    (by omega) rfl rfl rfl rfl

lemma getGo_all_server_error (totalRetries : ℕ) (backoff : ℚ) (resps : ℕ → Resp)
    (h : ∀ i, 500 ≤ (resps i).status ∧ (resps i).status < 600) :
    ∀ (rem attempt : ℕ) (st : FetchState), attempt + rem = totalRetries + 1 → 0 < rem →
      (getGo totalRetries backoff resps rem attempt st).1 =
        GetResult.httpError ((resps totalRetries).status) ∧
      (getGo totalRetries backoff resps rem attempt st).2.requests = st.requests + rem ∧
      (getGo totalRetries backoff resps rem attempt st).2.sleeps =
        st.sleeps ++ (List.range' attempt (rem - 1)).map (fun i => backoff * 2 ^ i) := by
  intro rem
  induction rem with
  | zero => intro attempt st _ h0; omega
  | succ k ih =>
    intro attempt st hsum _
    have hs := h attempt
    rw [getGo]
    rw [if_neg (by omega), if_neg (fun hc => by rw [hc.1] at hs; omega)]
    rcases Nat.eq_zero_or_pos k with hk | hk
    · subst hk
      have hat : attempt = totalRetries := by omega
      rw [if_neg (by omega), if_pos (by omega)]
      subst hat
      simp
    · rw [if_pos ⟨hs.1, by omega⟩]
      obtain ⟨h1, h2, h3⟩ := ih (attempt + 1) _ (by omega) hk
      refine ⟨h1, ?_, ?_⟩
      · rw [h2]; simp; omega
      · rw [h3]
        have : k + 1 - 1 = (k - 1) + 1 := by omega
        rw [this, List.range'_succ]
        simp

/-- C4: while the retry budget lasts, each 5xx response is followed by a sleep
of `backoff * 2 ** attempt`; once the budget is exhausted the error is surfaced
via `raise_for_status()`.  With `total_retries` retries, a server answering
only 5xx produces exactly `total_retries + 1` requests, the backoff sleeps
`backoff * 2 ** 0, ..., backoff * 2 ** (total_retries - 1)`, and a surfaced
`HTTPError`; no further requests are issued. -/
theorem server_error_backoff_exhausts_budget (totalRetries : ℕ) (backoff : ℚ)
    (resps : ℕ → Resp) (t0 : ℚ)
    (h : ∀ i, 500 ≤ (resps i).status ∧ (resps i).status < 600) :
    (_get totalRetries backoff resps t0).1 =
      GetResult.httpError ((resps totalRetries).status) ∧
    (_get totalRetries backoff resps t0).2.requests = totalRetries + 1 ∧
    (_get totalRetries backoff resps t0).2.sleeps =
      (List.range totalRetries).map (fun i => backoff * 2 ^ i) := by
  obtain ⟨h1, h2, h3⟩ := getGo_all_server_error totalRetries backoff resps h
    (totalRetries + 1) 0 ⟨t0, 0, []⟩ (by omega) (by omega)
  refine ⟨by simpa [_get] using h1, by simpa [_get] using h2, ?_⟩
  rw [_get, h3]
  simp [List.range_eq_range']

/-- Witness for C4: six consecutive 500 responses with `max_retries = 5` yield
a surfaced `HTTPError` after exactly six requests. -/
theorem server_error_backoff_exhausts_budget_witness :
    (_get 5 (1/2) err500Resps 0).1 = GetResult.httpError ((err500Resps 5).status) ∧
    (_get 5 (1/2) err500Resps 0).2.requests = 5 + 1 ∧
    (_get 5 (1/2) err500Resps 0).2.sleeps =
      (List.range 5).map (fun i => (1/2 : ℚ) * 2 ^ i) :=
  server_error_backoff_exhausts_budget 5 (1/2) err500Resps 0
    (fun _ => ⟨le_refl 500, by norm_num [err500Resps]⟩)

/-! ### Grid search: `best_grid` -/

/-- One candidate `(diff, area, cols, rows)` appended by `best_grid`'s loop for
a given row count: `cols = math.ceil(n / rows)` (written with the exact natural
ceiling division `(n + rows - 1) / rows`, which equals `math.ceil` of the real
quotient whenever `rows ≥ 1`), `diff = abs(cols / rows - target)` and
`area = cols * rows`. -/
def mkCand (n : ℕ) (target : ℚ) (rows : ℕ) : ℚ × ℕ × ℕ × ℕ :=
  let cols := (n + rows - 1) / rows
  (|((cols : ℚ) / (rows : ℚ)) - target|, cols * rows, cols, rows)

/-- The candidate list built by `best_grid`: `target = aspect_w / aspect_h`,
`rows_est = max(1, int(math.sqrt(n / target)))` — for nonnegative real `x`,
`int(math.sqrt(x)) = Nat.sqrt ⌊x⌋`, and `⌊n / (aw / ah)⌋ = n * ah / aw` in
natural division — and `rows` ranging over
`range(max(1, rows_est - 5), rows_est + 6)`. -/
def candList (n aw ah : ℕ) : List (ℚ × ℕ × ℕ × ℕ) :=
  let target : ℚ := (aw : ℚ) / (ah : ℚ)
  let rowsEst := max 1 (Nat.sqrt (n * ah / aw))
  let lo := max 1 (rowsEst - 5)
  ((List.range (rowsEst + 6 - lo)).map (fun i => lo + i)).map (mkCand n target)

/-- The sort key `lambda x: (x[0], x[1], x[3])` = `(diff, area, rows)` of the
source's `sorted(candidates, key=...)`, with Python's tuple comparison embedded
as the lexicographic order on `ℚ ×ₗ ℕ ×ₗ ℕ`. -/
def candKey (c : ℚ × ℕ × ℕ × ℕ) : ℚ ×ₗ ℕ ×ₗ ℕ :=
  toLex (c.1, toLex (c.2.1, c.2.2.2))

/-- `sorted(candidates, key=lambda x: (x[0], x[1], x[3]))[0]`: the first
candidate with the lexicographically least key, computed as a fold.  Distinct
candidates have distinct keys (the key contains `rows`), so this is the unique
key-minimal candidate, which is what a stable sort puts first. -/
def bestCand (n aw ah : ℕ) : ℚ × ℕ × ℕ × ℕ :=
  match candList n aw ah with
  | [] => (0, 0, 0, 0)
  | c :: cs => cs.foldl (fun acc x => if candKey x < candKey acc then x else acc) c

/-- `best_grid(n, aspect_w, aspect_h)` returns `(best_cols, best_rows)`. -/
def best_grid (n aw ah : ℕ) : ℕ × ℕ :=
  ((bestCand n aw ah).2.2.1, (bestCand n aw ah).2.2.2)

lemma foldl_min_mem {α K : Type*} [LinearOrder K] (f : α → K) :
    ∀ (l : List α) (a : α),
      l.foldl (fun acc x => if f x < f acc then x else acc) a ∈ a :: l := by
  intro l
  induction l with
  | nil => intro a; simp
  | cons b t ih =>
    intro a
    rw [List.foldl_cons]
    have h := ih (if f b < f a then b else a)
    rw [List.mem_cons] at h
    rcases h with h | h
    · rw [h]
      split_ifs
      · simp
      · simp
    · exact List.mem_cons_of_mem _ (List.mem_cons_of_mem _ h)

lemma foldl_min_le {α K : Type*} [LinearOrder K] (f : α → K) :
    ∀ (l : List α) (a x : α), x ∈ a :: l →
      f (l.foldl (fun acc y => if f y < f acc then y else acc) a) ≤ f x := by
  intro l
  induction l with
  | nil =>
    intro a x hx
    rw [List.mem_cons] at hx
    rcases hx with h | h
    · rw [List.foldl_nil, h]
    · simp at h
  | cons b t ih =>
    intro a x hx
    rw [List.foldl_cons]
    have hpa : f (if f b < f a then b else a) ≤ f a := by
      split_ifs with hc
      · exact le_of_lt hc
      · exact le_refl _
    have hpb : f (if f b < f a then b else a) ≤ f b := by
      split_ifs with hc
      · exact le_refl _
      · exact le_of_not_lt hc
    have hhead := ih (if f b < f a then b else a) _ (List.mem_cons_self _ _)
    rw [List.mem_cons] at hx
    rcases hx with h | h
    · rw [h]; exact le_trans hhead hpa
    · rw [List.mem_cons] at h
      rcases h with h | h
      · rw [h]; exact le_trans hhead hpb
      · exact ih _ x (List.mem_cons_of_mem _ h)

lemma candList_ne_nil (n aw ah : ℕ) : candList n aw ah ≠ [] := by
  simp only [candList, ne_eq, List.map_eq_nil_iff, List.range_eq_nil]
  omega

lemma candList_form (n aw ah : ℕ) :
    ∀ c ∈ candList n aw ah, 1 ≤ c.2.2.2 ∧ c = mkCand n ((aw : ℚ) / (ah : ℚ)) c.2.2.2 := by
  intro c hc
  simp only [candList, List.map_map, List.mem_map, List.mem_range] at hc
  obtain ⟨i, _, rfl⟩ := hc
  refine ⟨?_, rfl⟩
  exact le_trans (le_max_left 1 _) (Nat.le_add_right _ _)

lemma candKey_injOn (n aw ah : ℕ) :
    ∀ c ∈ candList n aw ah, ∀ d ∈ candList n aw ah, candKey c = candKey d → c = d := by
  intro c hc d hd hk
  have hrows : c.2.2.2 = d.2.2.2 := congrArg (fun k => (ofLex (ofLex k).2).2) hk
  have h1 := (candList_form n aw ah c hc).2
  have h2 := (candList_form n aw ah d hd).2
  rw [h1, h2, hrows]

lemma bestCand_eq_foldl (n aw ah : ℕ) {c : ℚ × ℕ × ℕ × ℕ} {cs : List (ℚ × ℕ × ℕ × ℕ)}
    (hcc : candList n aw ah = c :: cs) :
    bestCand n aw ah = cs.foldl (fun acc x => if candKey x < candKey acc then x else acc) c := by
  rw [bestCand, hcc]

lemma bestCand_mem (n aw ah : ℕ) : bestCand n aw ah ∈ candList n aw ah := by
  obtain ⟨c, cs, hcc⟩ := List.exists_cons_of_ne_nil (candList_ne_nil n aw ah)
  rw [bestCand_eq_foldl n aw ah hcc, hcc]
  exact foldl_min_mem candKey cs c

lemma bestCand_le (n aw ah : ℕ) :
    ∀ x ∈ candList n aw ah, candKey (bestCand n aw ah) ≤ candKey x := by
  intro x hx
  obtain ⟨c, cs, hcc⟩ := List.exists_cons_of_ne_nil (candList_ne_nil n aw ah)
  rw [bestCand_eq_foldl n aw ah hcc]
  exact foldl_min_le candKey cs c x (hcc ▸ hx)

lemma ceil_div_mul_ge (n r : ℕ) (hr : 0 < r) : n ≤ ((n + r - 1) / r) * r := by
  rcases Nat.eq_zero_or_pos n with rfl | hn
  · simp
  have h1 := Nat.div_add_mod (n + r - 1) r
  have h2 : (n + r - 1) % r < r := Nat.mod_lt _ hr
  obtain ⟨p, hp⟩ : ∃ p, r * ((n + r - 1) / r) = p := ⟨_, rfl⟩
  rw [hp] at h1
  rw [Nat.mul_comm ((n + r - 1) / r) r, hp]
  omega

/-- C2: for `n ≥ 1`, `best_grid(n, 16, 9)` returns `(cols, rows)` with
`cols * rows ≥ n`, `cols ≥ 1` and `rows ≥ 1`. -/
theorem best_grid_covers_count (n : ℕ) (hn : 1 ≤ n) :
    n ≤ (best_grid n 16 9).1 * (best_grid n 16 9).2 ∧
    1 ≤ (best_grid n 16 9).1 ∧ 1 ≤ (best_grid n 16 9).2 := by
  obtain ⟨hr, hform⟩ := candList_form n 16 9 _ (bestCand_mem n 16 9)
  have hcols : (bestCand n 16 9).2.2.1 =
      (n + (bestCand n 16 9).2.2.2 - 1) / (bestCand n 16 9).2.2.2 := by
    conv_lhs => rw [hform]
    rfl
  refine ⟨?_, ?_, hr⟩
  · show n ≤ (bestCand n 16 9).2.2.1 * (bestCand n 16 9).2.2.2
    rw [hcols]
    exact ceil_div_mul_ge n _ (by omega)
  · show 1 ≤ (bestCand n 16 9).2.2.1
    rw [hcols, Nat.one_le_div_iff (by omega)]
    omega

/-- Witness for C2 at `n = 7`. -/
theorem best_grid_covers_count_witness :
    7 ≤ (best_grid 7 16 9).1 * (best_grid 7 16 9).2 ∧
    1 ≤ (best_grid 7 16 9).1 ∧ 1 ≤ (best_grid 7 16 9).2 :=
  best_grid_covers_count 7 (by omega)

/-- C8: `best_grid` is deterministic — identical inputs give identical results
— and the tie-break key order is a linear order under which the selected
candidate is the unique key-minimal element of the candidate list. -/
theorem best_grid_selection_unique (n aw ah : ℕ) :
    best_grid n aw ah = best_grid n aw ah ∧
    ∃! c : ℚ × ℕ × ℕ × ℕ, c ∈ candList n aw ah ∧
      (∀ d ∈ candList n aw ah, candKey c ≤ candKey d) ∧
      best_grid n aw ah = (c.2.2.1, c.2.2.2) := by
  refine ⟨rfl, bestCand n aw ah,
    ⟨bestCand_mem n aw ah, bestCand_le n aw ah, rfl⟩, ?_⟩
  rintro c' ⟨hmem, hle, -⟩
  have h1 : candKey c' ≤ candKey (bestCand n aw ah) := hle _ (bestCand_mem n aw ah)
  have h2 : candKey (bestCand n aw ah) ≤ candKey c' := bestCand_le n aw ah _ hmem
  exact candKey_injOn n aw ah _ hmem _ (bestCand_mem n aw ah) (le_antisymm h1 h2)

/-- The reference bounded search, written from the spec's words: enumerate the
row counts `max(1, rows_est - 5) .. rows_est + 5` for
`target = aspect_w / aspect_h` and `rows_est = max(1, ⌊√(n / target)⌋)`, form
each candidate `(aspect error, area, cols, rows)` with `cols = ⌈n / rows⌉`, and
return the `(cols, rows)` of the candidate minimizing, in order, aspect error,
total area and row count — i.e. the first `List.argmin` of the lexicographic
key. -/
def bestGridSpec (n aw ah : ℕ) : ℕ × ℕ :=
  let target : ℚ := (aw : ℚ) / (ah : ℚ)
  let rowsEst := max 1 (Nat.sqrt (n * ah / aw))
  let lo := max 1 (rowsEst - 5)
  match ((List.range' lo (rowsEst + 5 + 1 - lo)).map (mkCand n target)).argmin candKey with
  | none => (1, 1)
  | some c => (c.2.2.1, c.2.2.2)

lemma specList_eq (n aw ah : ℕ) :
    (List.range' (max 1 (max 1 (Nat.sqrt (n * ah / aw)) - 5))
        (max 1 (Nat.sqrt (n * ah / aw)) + 5 + 1 -
          max 1 (max 1 (Nat.sqrt (n * ah / aw)) - 5))).map
        (mkCand n ((aw : ℚ) / (ah : ℚ))) = candList n aw ah := by
  rw [List.range'_eq_map_range]
  simp only [candList, List.map_map]

/-- C3: `best_grid` coincides with the spec's reference bounded search (same
candidate neighborhood, same lexicographic minimization), and in particular
`best_grid(1, 16, 9) = (1, 1)`. -/
theorem best_grid_eq_spec_search (n aw ah : ℕ) (hn : 1 ≤ n) (hw : 0 < aw)
    (hh : 0 < ah) :
    best_grid n aw ah = bestGridSpec n aw ah ∧ best_grid 1 16 9 = (1, 1) := by
  constructor
  · simp only [bestGridSpec]
    rw [specList_eq n aw ah]
    obtain ⟨m, hm⟩ : ∃ m, (candList n aw ah).argmin candKey = some m := by
      cases h : (candList n aw ah).argmin candKey with
      | none => exact absurd (List.argmin_eq_none.mp h) (candList_ne_nil n aw ah)
      | some m => exact ⟨m, rfl⟩
    rw [hm]
    have hmem : m ∈ candList n aw ah := List.argmin_mem (Option.mem_def.mpr hm)
    have hmin : ∀ x ∈ candList n aw ah, candKey m ≤ candKey x :=
      fun x hx => List.le_of_mem_argmin hx (Option.mem_def.mpr hm)
    have hbm : bestCand n aw ah = m :=
      candKey_injOn n aw ah _ (bestCand_mem n aw ah) _ hmem
        (le_antisymm (bestCand_le n aw ah _ hmem) (hmin _ (bestCand_mem n aw ah)))
    rw [best_grid, hbm]
  · have hl : candList 1 16 9 =
        [(7/9, 1, 1, 1), (23/18, 2, 1, 2), (13/9, 3, 1, 3),
         (55/36, 4, 1, 4), (71/45, 5, 1, 5), (29/18, 6, 1, 6)] := by
      norm_num [candList, mkCand, List.range_succ]
    rw [best_grid, bestCand_eq_foldl 1 16 9 hl]
    norm_num [candKey, Prod.Lex.lt_iff, List.foldl_cons, List.foldl_nil]

/-- Witness for C3 at `n = 16`. -/
theorem best_grid_eq_spec_search_witness :
    best_grid 16 16 9 = bestGridSpec 16 16 9 ∧ best_grid 1 16 9 = (1, 1) :=
  best_grid_eq_spec_search 16 16 9 (by omega) (by omega) (by omega)

/-! ### Collage composition: `make_collage` and `open_as_square_thumb` -/

/-- The geometry `make_collage` computes: grid shape, square cell size,
centering margins, and the row-major paste positions of the first `n` cells
(the inner loop stops pasting as soon as `i >= n`). -/
structure Layout where
  cols : ℕ
  rows : ℕ
  cell : ℕ
  marginX : ℕ
  marginY : ℕ
  positions : List (ℕ × ℕ)

/-- The layout computed by `make_collage` for `n` images on a `width × height`
canvas: `cols, rows = best_grid(n, 16, 9)`,
`cell = min(width // cols, height // rows)`, `grid_w = cell * cols`,
`grid_h = cell * rows`, `margin_x = (width - grid_w) // 2`,
`margin_y = (height - grid_h) // 2`, and one paste at
`(margin_x + c * cell, margin_y + r * cell)` per cell in row-major order while
`i < n`. -/
def collageLayout (n width height : ℕ) : Layout :=
  let g := best_grid n 16 9
  let cols := g.1
  let rows := g.2
  let cell := min (width / cols) (height / rows)
  let marginX := (width - cell * cols) / 2
  let marginY := (height - cell * rows) / 2
  { cols := cols, rows := rows, cell := cell, marginX := marginX, marginY := marginY,
    positions :=
      (((List.range rows).flatMap fun r =>
        (List.range cols).map fun c => (marginX + c * cell, marginY + r * cell)).take n) }

/-- `make_collage(image_paths, out_path, width, height, background)`: raises
`ValueError("No images to compose.")` on an empty list before any grid
computation, and otherwise assembles the centered grid layout above (image
decoding, resizing and file encoding are external library calls). -/
def make_collage {α : Type*} (image_paths : List α) (width height : ℕ) :
    Except String Layout :=
  if image_paths.length = 0 then Except.error "No images to compose."
  else Except.ok (collageLayout image_paths.length width height)

/-- The geometry of `open_as_square_thumb(p, size)` for a source image of
dimensions `img_w × img_h`: `scale = min(size / img_w, size / img_h)`,
`new_w = max(1, int(img_w * scale))`, `new_h = max(1, int(img_h * scale))`,
`off_x = (size - new_w) // 2`, `off_y = (size - new_h) // 2`, returned as
`(new_w, new_h, off_x, off_y)`; the scaled image is pasted at
`(off_x, off_y)` onto a background-filled `size × size` square. -/
def open_as_square_thumb (imgW imgH size : ℕ) : ℕ × ℕ × ℕ × ℕ :=
  let scale : ℚ := min ((size : ℚ) / (imgW : ℚ)) ((size : ℚ) / (imgH : ℚ))
  let newW := max 1 (pyInt ((imgW : ℚ) * scale)).toNat
  let newH := max 1 (pyInt ((imgH : ℚ) * scale)).toNat
  (newW, newH, (size - newW) / 2, (size - newH) / 2)

/-- C9: composing an empty image sequence fails with the empty-input error
`ValueError("No images to compose.")` and produces no layout. -/
theorem make_collage_empty_error {α : Type*} (width height : ℕ) :
    make_collage ([] : List α) width height = Except.error "No images to compose." := rfl

lemma grid_fits (w cols cell : ℕ) (hcell : cell ≤ w / cols) {c : ℕ} (hc : c < cols) :
    (w - cell * cols) / 2 + c * cell + cell ≤ w := by
  have h1 : cell * cols ≤ w :=
    le_trans (Nat.mul_le_mul_right cols hcell) (Nat.div_mul_le_self w cols)
  have h3 : c * cell + cell ≤ cols * cell := by
    have h4 : (c + 1) * cell ≤ cols * cell := Nat.mul_le_mul_right cell (by omega)
    calc c * cell + cell = (c + 1) * cell := by ring
      _ ≤ cols * cell := h4
  have h5 : cols * cell = cell * cols := Nat.mul_comm _ _
  omega

/-- C6: for a nonempty image list on a `width × height` canvas, `make_collage`
builds the layout with `cell = min(width // cols, height // rows)` for the
grid `(cols, rows) = best_grid(n, 16, 9)`, margins
`margin_x = (width - cell*cols) // 2` and `margin_y = (height - cell*rows) // 2`,
and every cell of the grid — in particular every pasted position — lies
entirely within the canvas bounds. -/
theorem collage_cells_within_canvas {α : Type*} (image_paths : List α)
    (width height : ℕ) (hne : image_paths ≠ []) (hw : 1 ≤ width) (hh : 1 ≤ height) :
    (let L := collageLayout image_paths.length width height
    make_collage image_paths width height = Except.ok L ∧
    (L.cols, L.rows) = best_grid image_paths.length 16 9 ∧
    L.cell = min (width / L.cols) (height / L.rows) ∧
    L.marginX = (width - L.cell * L.cols) / 2 ∧
    L.marginY = (height - L.cell * L.rows) / 2 ∧
    (∀ c < L.cols, ∀ r < L.rows,
      L.marginX + c * L.cell + L.cell ≤ width ∧
      L.marginY + r * L.cell + L.cell ≤ height) ∧
    ∀ p ∈ L.positions, p.1 + L.cell ≤ width ∧ p.2 + L.cell ≤ height) := by
  intro L
  have hxbound : ∀ c < L.cols, L.marginX + c * L.cell + L.cell ≤ width := by
    intro c hc
    exact grid_fits width L.cols L.cell (min_le_left _ _) hc
  have hybound : ∀ r < L.rows, L.marginY + r * L.cell + L.cell ≤ height := by
    intro r hr
    exact grid_fits height L.rows L.cell (min_le_right _ _) hr
  refine ⟨?_, rfl, rfl, rfl, rfl, fun c hc r hr => ⟨hxbound c hc, hybound r hr⟩, ?_⟩
  · rw [make_collage, if_neg (by simpa [List.length_eq_zero] using hne)]
  · intro p hp
    have hp2 := List.take_subset _ _ hp
    rw [List.mem_flatMap] at hp2
    obtain ⟨r, hr, hp3⟩ := hp2
    rw [List.mem_map] at hp3
    obtain ⟨c, hc, rfl⟩ := hp3
    rw [List.mem_range] at hr hc
    exact ⟨hxbound c hc, hybound r hr⟩

/-- Witness for C6 with three images on a 16 × 9 canvas. -/
theorem collage_cells_within_canvas_witness :
    let L := collageLayout ([(), (), ()] : List Unit).length 16 9
    make_collage ([(), (), ()] : List Unit) 16 9 = Except.ok L ∧
    (L.cols, L.rows) = best_grid ([(), (), ()] : List Unit).length 16 9 ∧
    L.cell = min (16 / L.cols) (9 / L.rows) ∧
    L.marginX = (16 - L.cell * L.cols) / 2 ∧
    L.marginY = (9 - L.cell * L.rows) / 2 ∧
    (∀ c < L.cols, ∀ r < L.rows,
      L.marginX + c * L.cell + L.cell ≤ 16 ∧
      L.marginY + r * L.cell + L.cell ≤ 9) ∧
    ∀ p ∈ L.positions, p.1 + L.cell ≤ 16 ∧ p.2 + L.cell ≤ 9 :=
  collage_cells_within_canvas ([(), (), ()] : List Unit) 16 9
    (by simp) (by omega) (by omega)

lemma thumb_dim_le (d size : ℕ) (scale : ℚ) (hd : 1 ≤ d) (hs : 1 ≤ size)
    (hscale0 : 0 ≤ scale) (hscale : scale ≤ (size : ℚ) / (d : ℚ)) :
    max 1 (pyInt ((d : ℚ) * scale)).toNat ≤ size := by
  have hd0 : ((d : ℚ)) ≠ 0 := by
    have : (0 : ℚ) < (d : ℚ) := by exact_mod_cast Nat.lt_of_lt_of_le Nat.zero_lt_one hd
    exact ne_of_gt this
  have hval : (d : ℚ) * scale ≤ ((size : ℕ) : ℚ) := by
    calc (d : ℚ) * scale ≤ (d : ℚ) * ((size : ℚ) / (d : ℚ)) :=
          mul_le_mul_of_nonneg_left hscale (by positivity)
      _ = ((size : ℕ) : ℚ) := by rw [← mul_div_assoc, mul_div_cancel_left₀ _ hd0]
  have h0 : 0 ≤ (d : ℚ) * scale := mul_nonneg (by positivity) hscale0
  rw [pyInt, if_pos h0]
  have hfloor : ⌊(d : ℚ) * scale⌋ ≤ (size : ℤ) := by
    calc ⌊(d : ℚ) * scale⌋ ≤ ⌊((size : ℕ) : ℚ)⌋ := Int.floor_le_floor hval
      _ = (size : ℤ) := Int.floor_natCast size
  omega

/-- C7: the thumbnail geometry scales uniformly by
`min(size / img_w, size / img_h)`: neither scaled dimension exceeds the cell
size (no cropping, no non-uniform stretch), the scaled image fits entirely at
its paste offset inside the background-filled cell, and it is centered — the
margins on the two sides of each axis differ by at most one pixel. -/
theorem thumb_fits_and_centered (imgW imgH size : ℕ)
    (hw : 1 ≤ imgW) (hh : 1 ≤ imgH) (hs : 1 ≤ size) :
    (let t := open_as_square_thumb imgW imgH size
    t.1 ≤ size ∧ t.2.1 ≤ size ∧
    t.2.2.1 + t.1 ≤ size ∧ t.2.2.2 + t.2.1 ≤ size ∧
    t.2.2.1 ≤ size - t.1 - t.2.2.1 ∧ size - t.1 - t.2.2.1 ≤ t.2.2.1 + 1 ∧
    t.2.2.2 ≤ size - t.2.1 - t.2.2.2 ∧ size - t.2.1 - t.2.2.2 ≤ t.2.2.2 + 1) := by
  intro t
  have hsw : (0 : ℚ) ≤ (size : ℚ) / (imgW : ℚ) := by positivity
  have hsh : (0 : ℚ) ≤ (size : ℚ) / (imgH : ℚ) := by positivity
  have h1 : t.1 = max 1 (pyInt ((imgW : ℚ) *
      min ((size : ℚ) / (imgW : ℚ)) ((size : ℚ) / (imgH : ℚ)))).toNat := rfl
  have h2 : t.2.1 = max 1 (pyInt ((imgH : ℚ) *
      min ((size : ℚ) / (imgW : ℚ)) ((size : ℚ) / (imgH : ℚ)))).toNat := rfl
  have h3 : t.2.2.1 = (size - t.1) / 2 := rfl
  have h4 : t.2.2.2 = (size - t.2.1) / 2 := rfl
  have hW : t.1 ≤ size := by
    rw [h1]
    exact thumb_dim_le imgW size _ hw hs (le_min hsw hsh) (min_le_left _ _)
  have hH : t.2.1 ≤ size := by
    rw [h2]
    exact thumb_dim_le imgH size _ hh hs (le_min hsw hsh) (min_le_right _ _)
  refine ⟨hW, hH, ?_, ?_, ?_, ?_, ?_, ?_⟩ <;> omega

/-- Witness for C7 with a 3 × 2 image in a 5 × 5 cell. -/
theorem thumb_fits_and_centered_witness :
    let t := open_as_square_thumb 3 2 5
    t.1 ≤ 5 ∧ t.2.1 ≤ 5 ∧
    t.2.2.1 + t.1 ≤ 5 ∧ t.2.2.2 + t.2.1 ≤ 5 ∧
    t.2.2.1 ≤ 5 - t.1 - t.2.2.1 ∧ 5 - t.1 - t.2.2.1 ≤ t.2.2.1 + 1 ∧
    t.2.2.2 ≤ 5 - t.2.1 - t.2.2.2 ∧ 5 - t.2.1 - t.2.2.2 ≤ t.2.2.2 + 1 :=
  thumb_fits_and_centered 3 2 5 (by omega) (by omega) (by omega)

/-! ### Pagination: `list_org_members` -/

/-- Python `seg.find(sub)` for a single-character pattern: index of the first
occurrence, `-1` if absent. -/
def pyFind (c : Char) : List Char → ℤ
  | [] => -1
  | x :: xs =>
    if x = c then 0
    else
      let r := pyFind c xs
      if r = -1 then -1 else r + 1

/-- Python slice `s[a:b]`, including the negative-index convention. -/
def pySlice (s : List Char) (start stop : ℤ) : List Char :=
  let n : ℤ := s.length
  let a := (if start < 0 then max 0 (start + n) else min start n).toNat
  let b := (if stop < 0 then max 0 (stop + n) else min stop n).toNat
  (s.take b).drop a

/-- Python `link.split(",")` at the character level. -/
def splitOnComma : List Char → List (List Char)
  | [] => [[]]
  | x :: xs =>
    if x = ',' then [] :: splitOnComma xs
    else
      match splitOnComma xs with
      | [] => [[x]]
      | y :: ys => (x :: y) :: ys

/-- Python `part.strip()`: drop leading and trailing whitespace. -/
def pyStrip (s : List Char) : List Char :=
  ((s.dropWhile Char.isWhitespace).reverse.dropWhile Char.isWhitespace).reverse

/-- Python `sub in seg`: substring containment. -/
def containsSub (pat : List Char) : List Char → Bool
  | [] => pat.isEmpty
  | x :: xs => pat.isPrefixOf (x :: xs) || containsSub pat xs

/-- The pattern `rel="next"` searched for in each Link-header part. -/
def relNextPat : List Char := String.toList "rel=\"next\""

/-- The `for part in parts` scan of `list_org_members`: strip each
comma-separated part and, on the first one containing `rel="next"`, return
`seg[seg.find("<")+1 : seg.find(">")]`. -/
def findNextPart : List (List Char) → Option (List Char)
  | [] => none
  | part :: rest =>
    let seg := pyStrip part
    if containsSub relNextPat seg then
      some (pySlice seg (pyFind '<' seg + 1) (pyFind '>' seg))
    else findNextPart rest

/-- Extraction of the pagination cursor from the `Link` header
(`r.headers.get("Link", "")`, so an absent header is the empty string, which
yields no cursor). -/
def parseNextUrl (link : List Char) : Option (List Char) :=
  if link.isEmpty then none
  else findNextPart (splitOnComma link)

/-- One page response as `list_org_members` observes it: the JSON body (`none`
models a non-list body, the `ValueError` case) and the `Link` header (`[]`
when absent).  Member records are abstracted to identifiers. -/
structure PageResp where
  body : Option (List ℕ)
  link : List Char
deriving DecidableEq

/-- The `while True` loop of `list_org_members(org, token)`, run against the
server's responses in request order: accumulate each list-shaped body, then
test `if next_url:` — Python truthiness, so the loop continues only when a
cursor was extracted *and* it is a nonempty string; a missing cursor or an
extracted empty cursor (e.g. a `<>; rel="next"` part) breaks the loop.
Returns the accumulated members with the number of requests issued; `none`
models the `ValueError` for a non-list body or a next cursor pointing past the
modeled response sequence. -/
def list_org_members : List PageResp → Option (List ℕ × ℕ)
  | [] => none
  | p :: rest =>
    match p.body with
    | none => none
    | some recs =>
      match parseNextUrl p.link with
      | none => some (recs, 1)
      | some nextUrl =>
        if nextUrl = [] then some (recs, 1)
        else
          match list_org_members rest with
          | none => none
          | some (ms, k) => some (recs ++ ms, k + 1)

/-- C5: for every finite response sequence whose pages are list-shaped, where
each page but the last carries a parsable, truthy (nonempty) `rel="next"`
cursor and the last carries none, `list_org_members` issues exactly one
request per page and returns the concatenation of the pages' records in
request order. -/
theorem pagination_concat_in_order :
    ∀ (pages : List PageResp) (hne : pages ≠ []),
      (∀ p ∈ pages, p.body.isSome) →
      (∀ p ∈ pages.dropLast, (parseNextUrl p.link).getD [] ≠ []) →
      parseNextUrl (pages.getLast hne).link = none →
      list_org_members pages =
        some ((pages.map (fun p => p.body.getD [])).flatten, pages.length) := by
  intro pages
  induction pages with
  | nil => intro hne; exact absurd rfl hne
  | cons p rest ih =>
    intro hne hbody hnext hlast
    obtain ⟨recs, hrecs⟩ := Option.isSome_iff_exists.mp (hbody p (List.mem_cons_self p rest))
    cases rest with
    | nil =>
      have hl : parseNextUrl p.link = none := hlast
      simp [list_org_members, hrecs, hl]
    | cons q rest2 =>
      have hne2 : (q :: rest2) ≠ [] := by simp
      have hdrop : (p :: q :: rest2).dropLast = p :: (q :: rest2).dropLast :=
        List.dropLast_cons_of_ne_nil hne2
      have hn := hnext p (by rw [hdrop]; exact List.mem_cons_self _ _)
      obtain ⟨u, hu⟩ : ∃ u, parseNextUrl p.link = some u := by
        cases h : parseNextUrl p.link with
        | none => rw [h] at hn; simp at hn
        | some v => exact ⟨v, rfl⟩
      have hune : u ≠ [] := by rw [hu] at hn; simpa using hn
      have hlast2 : parseNextUrl ((q :: rest2).getLast hne2).link = none := by
        rw [← List.getLast_cons hne2]
        exact hlast
      have hrest := ih hne2 (fun x hx => hbody x (List.mem_cons_of_mem _ hx))
        (fun x hx => hnext x (by rw [hdrop]; exact List.mem_cons_of_mem _ hx)) hlast2
      rw [list_org_members, hrecs, hu, hrest]
      simp [hrecs, hune]

/-- First synthetic page: two records and a `rel="next"` cursor. -/
def page1 : PageResp :=
  ⟨some [1, 2], String.toList "<https://api.example/members?page=2>; rel=\"next\""⟩

/-- Second synthetic page: one record, a `rel="prev"` part and a `rel="next"`
part. -/
def page2 : PageResp :=
  ⟨some [3],
    String.toList
      "<https://api.example/members?page=1>; rel=\"prev\", <https://api.example/members?page=3>; rel=\"next\""⟩

/-- Last synthetic page: two records, no `Link` header. -/
def page3 : PageResp := ⟨some [4, 5], []⟩

/-- The synthetic 3-page response sequence of the spec's pagination scenario. -/
def threePages : List PageResp := [page1, page2, page3]

/-- Witness for C5: the synthetic 3-page sequence yields exactly 3 requests
and the three pages concatenated in order. -/
theorem pagination_concat_in_order_witness :
    list_org_members threePages =
      some ((threePages.map (fun p => p.body.getD [])).flatten, threePages.length) :=
  pagination_concat_in_order threePages (by decide) (by decide) (by decide) (by decide)
